import Mathlib

/-!
Verification of the BookmarkManager folder/link core: a shallow embedding of
the tree-store operations from `src/js/main.js` (saveFolder, deleteFolder,
moveLink, toggleFolder, autoCloseEmptyFolders, updateFolderOrder,
updateSubfolderOrder, updateLinkOrder, isDescendant,
getAllDescendantFolderIds, loadData defaulting) and from
`src/js/core/DataManager.js` (deleteSubfolders), together with proofs of the
specification's claims about them.
-/

namespace BM

/-- A folder entity, as stored in `bookmarkData.folders`. -/
structure Folder where
  id : String
  name : String
  parentId : Option String
  order : Int
  deriving Repr, DecidableEq

/-- A link entity, as stored in `bookmarkData.links`. -/
structure Link where
  id : String
  title : String
  url : String
  folderId : Option String
  order : Int
  deriving Repr, DecidableEq

/-- The in-memory store (`bookmarkData`), restricted to the core fields. -/
structure BookmarkData where
  folders : List Folder
  links : List Link
  deriving Repr, DecidableEq

/-- `hasSubfolders` from main.js: true iff some folder has this parent. -/
def hasSubfolders (data : BookmarkData) (folderId : String) : Bool :=
  data.folders.any (fun f => f.parentId = some folderId)

/-- Fuelled embedding of the recursive `isDescendant(childId, parentId)` from
main.js: walk the ancestor chain upward from `childId` comparing to
`parentId`.  `none` models non-termination within the given fuel (the JS
function carries no visited set and recurses unboundedly). -/
def isDescendant (folders : List Folder) : Nat → String → String → Option Bool
  | 0, _, _ => none
  | fuel + 1, childId, parentId =>
    if childId = parentId then some true
    else
      match folders.find? (fun f => f.id = childId) with
      | none => some false
      | some f =>
        match f.parentId with
        | none => some false
        | some p => isDescendant folders fuel p parentId

/-- One upward step in the parent graph: some folder entity has id `x` and
parent `y`. -/
def stepUp (folders : List Folder) (x y : String) : Prop :=
  ∃ f, f ∈ folders ∧ f.id = x ∧ f.parentId = some y

/-- `y` is a strict ancestor of `x` (equivalently `x` is a strict descendant
of `y`): the parent chain from `x` reaches `y` in at least one step. -/
def Ancestor (folders : List Folder) (x y : String) : Prop :=
  Relation.TransGen (stepUp folders) x y

/-- Acyclicity of the parent graph: no folder id is its own strict ancestor. -/
def Acyclic (folders : List Folder) : Prop :=
  ∀ x, ¬ Ancestor folders x x

/-- Update the first element satisfying `p` (the `Array.prototype.find`
followed by in-place mutation idiom used throughout main.js). -/
def updFirst (p : α → Bool) (g : α → α) : List α → List α
  | [] => []
  | a :: as => if p a then g a :: as else a :: updFirst p g as

/-- Error raised (as a user-facing alert) when a reparent would create a
cycle. -/
inductive SaveError where
  | CycleError
  deriving Repr, DecidableEq

/-- Embedding of `saveFolder` from main.js in edit mode (`currentEditId`
set): find the folder, run the `isDescendant` cycle check against the new
parent, and on success overwrite `name` and `parentId`.  The result pairs the
resulting store with the error raised, if any; `none` models the cycle
check running out of fuel. -/
def saveFolderEdit (data : BookmarkData) (fuel : Nat) (editId : String)
    (name : String) (parentId : Option String) :
    Option (BookmarkData × Option SaveError) :=
  if name = "" then some (data, none)
  else
    match data.folders.find? (fun f => f.id = editId) with
    | none => some (data, none)
    | some folder =>
      let write : BookmarkData :=
        { data with
          folders := updFirst (fun f => f.id = editId)
            (fun f => { f with name := name, parentId := parentId })
            data.folders }
      match parentId with
      | none => some (write, none)
      | some p =>
        match isDescendant data.folders fuel p folder.id with
        | none => none
        | some true => some (data, some SaveError.CycleError)
        | some false => some (write, none)

/-- Embedding of `saveFolder` from main.js in create mode (no
`currentEditId`): push a new folder with `order = bookmarkData.folders.length`. -/
def saveFolderCreate (data : BookmarkData) (newId name : String)
    (parentId : Option String) : BookmarkData :=
  if name = "" then data
  else
    { data with
      folders := data.folders ++
        [{ id := newId, name := name, parentId := parentId,
           order := Int.ofNat data.folders.length }] }

/-- Embedding of `getAllDescendantFolderIds` from main.js: recursively
collect `folder.id` followed by that child's descendants, for each child of
`folderId`.  Fuelled; `none` models running out of fuel. -/
def getAllDescendantFolderIds (folders : List Folder) :
    Nat → String → Option (List String)
  | 0, _ => none
  | fuel + 1, folderId =>
    (folders.filter (fun f => f.parentId = some folderId)).foldl
      (fun acc f =>
        match acc with
        | none => none
        | some l =>
          match getAllDescendantFolderIds folders fuel f.id with
          | none => none
          | some ds => some (l ++ f.id :: ds))
      (some [])

/-- Embedding of `deleteFolder` from main.js: compute the descendant id set,
then filter out the folders in it and the links whose `folderId` is in it. -/
def deleteFolder (data : BookmarkData) (fuel : Nat) (folderId : String) :
    Option BookmarkData :=
  match getAllDescendantFolderIds data.folders fuel folderId with
  | none => none
  | some descendantIds =>
    let allIds := folderId :: descendantIds
    some
      { folders := data.folders.filter (fun f => ¬ f.id ∈ allIds),
        links := data.links.filter (fun l =>
          match l.folderId with
          | none => true
          | some fid => ¬ fid ∈ allIds) }

/-- Embedding of `moveLink` from main.js: find the link, set its `folderId`
to the destination, then set its `order` to the count of links whose
`folderId` equals the destination in the already-updated list (the moved
link itself included). -/
def moveLink (data : BookmarkData) (linkId folderId : String) : BookmarkData :=
  match data.links.find? (fun l => l.id = linkId) with
  | none => data
  | some _ =>
    let links1 := updFirst (fun l => l.id = linkId)
      (fun l => { l with folderId := some folderId }) data.links
    let cnt := (links1.filter (fun l => l.folderId = some folderId)).length
    { data with
      links := updFirst (fun l => l.id = linkId)
        (fun l => { l with order := Int.ofNat cnt }) links1 }

/-- UI-session state: the set of folder ids whose DOM element carries the
`expanded` class, the ids carrying `selected`, the `currentFolder` variable,
and the set of folder ids that have a DOM element at all (`domFolders`). -/
structure UIState where
  expanded : List String
  selected : List String
  currentFolder : Option String
  domFolders : List String
  deriving Repr, DecidableEq

/-- Embedding of `autoCloseEmptyFolders` from main.js: every expanded folder
other than the one being activated loses its `expanded` class when
`hasSubfolders` is false for it. -/
def autoCloseEmptyFolders (data : BookmarkData) (ui : UIState)
    (currentFolderId : String) : UIState :=
  { ui with
    expanded := ui.expanded.filter
      (fun id => id = currentFolderId ∨ hasSubfolders data id) }

/-- The body of `toggleFolder` shared by main.js and
`FolderManager.toggleFolder`, run when the folder element exists: auto-close
pass, re-select, then toggle the `expanded` class of the target (rendering
its subfolders on expand) and set `currentFolder`. -/
def toggleFolderCore (data : BookmarkData) (ui : UIState)
    (folderId : String) : UIState :=
  let ui1 := autoCloseEmptyFolders data ui folderId
  let ui2 := { ui1 with selected := [folderId] }
  if folderId ∈ ui2.expanded then
    { ui2 with
      expanded := ui2.expanded.filter (fun id => ¬ id = folderId),
      currentFolder := some folderId }
  else
    { ui2 with
      expanded := folderId :: ui2.expanded,
      currentFolder := some folderId }

/-- Embedding of `toggleFolder` from main.js.  When no DOM element exists for
`folderId` (in particular when the store holds zero folders), the JS
dereferences the `null` returned by `querySelector`
(`folder.classList.add('selected')`) and throws a `TypeError`; that thrown
path is modelled as `none`. -/
def toggleFolder (data : BookmarkData) (ui : UIState) (folderId : String) :
    Option UIState :=
  if folderId ∈ ui.domFolders then some (toggleFolderCore data ui folderId)
  else none

/-- Embedding of `FolderManager.toggleFolder` from the modular component
(src/unnamed/part_001): identical to main.js except that a missing folder
element is caught by an explicit `if (!folder) return;` guard before any
mutation, making the call a no-op instead of a throw. -/
def toggleFolderFM (data : BookmarkData) (ui : UIState) (folderId : String) :
    UIState :=
  if folderId ∈ ui.domFolders then toggleFolderCore data ui folderId
  else ui

/-- A folder as it arrives in the raw load snapshot: `parentId` and `order`
may be absent (`none` at the outer layer models a missing property). -/
structure RawFolder where
  id : String
  name : String
  parentId : Option (Option String)
  order : Option Int
  deriving Repr, DecidableEq

/-- A link as it arrives in the raw load snapshot. -/
structure RawLink where
  id : String
  title : String
  url : String
  folderId : Option (Option String)
  order : Option Int
  deriving Repr, DecidableEq

/-- A raw load snapshot: the `folders` / `links` properties themselves may be
missing (or not arrays), modelled as `none`. -/
structure RawData where
  folders : Option (List RawFolder)
  links : Option (List RawLink)
  deriving Repr, DecidableEq

/-- Folder part of the `loadData` sanitisation in main.js: a missing
`folders` array becomes `[]`; each folder missing `order` gets its index;
each folder missing `parentId` gets `null`. -/
def loadDataFolders (raw : Option (List RawFolder)) : List RawFolder :=
  (raw.getD []).enum.map (fun q =>
    { q.2 with
      order := some (q.2.order.getD (Int.ofNat q.1)),
      parentId := some (q.2.parentId.getD none) })

/-- Link part of the `loadData` sanitisation in main.js: a missing `links`
array becomes `[]`; each link missing `order` gets its index.  (`folderId`
is not touched by this loop.) -/
def loadDataLinks (raw : Option (List RawLink)) : List RawLink :=
  (raw.getD []).enum.map (fun q =>
    { q.2 with order := some (q.2.order.getD (Int.ofNat q.1)) })

/-- Embedding of `DataManager.deleteSubfolders`: recursively delete the
subtree below `parentId`, removing each subtree's links along the way and
the direct children at the end.  Fuelled; `none` models running out of
fuel. -/
def deleteSubfolders : Nat → BookmarkData → String → Option BookmarkData
  | 0, _, _ => none
  | fuel + 1, data, parentId =>
    let subfolders := data.folders.filter (fun f => f.parentId = some parentId)
    let st := subfolders.foldl
      (fun acc sf =>
        match acc with
        | none => none
        | some d =>
          match deleteSubfolders fuel d sf.id with
          | none => none
          | some d1 =>
            some { d1 with
              links := d1.links.filter (fun l => ¬ l.folderId = some sf.id) })
      (some data)
    match st with
    | none => none
    | some d =>
      some { d with
        folders := d.folders.filter (fun f => ¬ f.parentId = some parentId) }

section Ordering

variable {α : Type}

/-- Apply one DOM-derived assignment list: for each `(index, id)` pair in
order, find the first entity whose key is `id` and overwrite it with
`touch index`.  This is the common shape of `updateFolderOrder`,
`updateSubfolderOrder` and `updateLinkOrder`. -/
def applyPairs (key : α → String) (touch : Nat → α → α)
    (ls : List α) (ps : List (Nat × String)) : List α :=
  ps.foldl (fun acc q => updFirst (fun a => key a = q.2) (touch q.1) acc) ls

/-- Run an ordering pass over the id sequence read off the DOM, pairing each
id with its position. -/
def applySeq (key : α → String) (touch : Nat → α → α)
    (ls : List α) (seq : List String) : List α :=
  applyPairs key touch ls seq.enum

end Ordering

/-- Embedding of `updateFolderOrder` from main.js (root folder list scope):
each sequenced folder gets `order := index`. -/
def updateFolderOrder (folders : List Folder) (seq : List String) :
    List Folder :=
  applySeq Folder.id (fun n f => { f with order := Int.ofNat n }) folders seq

/-- Embedding of `updateSubfolderOrder` from main.js (one parent's subfolder
scope): each sequenced folder gets `order := index` and additionally
`parentId := parentId` of the scope. -/
def updateSubfolderOrder (folders : List Folder) (parentId : String)
    (seq : List String) : List Folder :=
  applySeq Folder.id
    (fun n f => { f with order := Int.ofNat n, parentId := some parentId })
    folders seq

/-- Embedding of `updateLinkOrder` from main.js (one folder's link scope):
each sequenced link gets `order := index` and additionally
`folderId := folderId` of the scope. -/
def updateLinkOrder (links : List Link) (folderId : String)
    (seq : List String) : List Link :=
  applySeq Link.id
    (fun n l => { l with order := Int.ofNat n, folderId := some folderId })
    links seq

/-! ### Generic lemmas about the ordering passes -/

/-- Final index assigned by the assignment list `ps` to the entity sitting at
position `p` of a list whose key sequence is `ids`: each pair `(n, s)`
targets the first position whose key is `s`, and the last pair targeting `p`
wins. -/
def lastAssign (ids : List String) : List (Nat × String) → Nat → Option Nat
  | [], _ => none
  | q :: ps, p =>
    match lastAssign ids ps p with
    | some n => some n
    | none =>
      if ids.findIdx? (fun t => t = q.2) = some p then some q.1 else none

section OrderingLemmas

variable {α : Type} (key : α → String) (touch : Nat → α → α)

theorem updFirst_map_key (g : α → α) (hg : ∀ a, key (g a) = key a)
    (s : String) :
    ∀ ls : List α, (updFirst (fun a => key a = s) g ls).map key = ls.map key
  | [] => rfl
  | a :: as => by
    by_cases h : key a = s
    · simp [updFirst, h, hg]
    · simp [updFirst, h, updFirst_map_key g hg s as]

theorem updFirst_getElem? (g : α → α) (s : String) :
    ∀ (ls : List α) (p : Nat),
      (updFirst (fun a => key a = s) g ls)[p]? =
        if (ls.map key).findIdx? (fun t => t = s) = some p
        then ls[p]?.map g else ls[p]?
  | [], p => by simp [updFirst]
  | a :: as, p => by
    by_cases h : key a = s
    · match p with
      | 0 => simp [updFirst, h]
      | p + 1 => simp [updFirst, h]
    · match p with
      | 0 => simp [updFirst, h, List.findIdx?_succ]
      | p + 1 =>
        simp [updFirst, h, List.findIdx?_succ,
          updFirst_getElem? g s as p]

theorem applyPairs_map_key (hkey : ∀ n a, key (touch n a) = key a) :
    ∀ (ps : List (Nat × String)) (ls : List α),
      (applyPairs key touch ls ps).map key = ls.map key
  | [], _ => rfl
  | q :: ps, ls => by
    have h1 : applyPairs key touch ls (q :: ps) =
        applyPairs key touch
          (updFirst (fun a => key a = q.2) (touch q.1) ls) ps := rfl
    rw [h1, applyPairs_map_key hkey ps,
      updFirst_map_key key (touch q.1) (fun a => hkey q.1 a) q.2]

theorem applyPairs_getElem? (hkey : ∀ n a, key (touch n a) = key a)
    (habs : ∀ n m a, touch n (touch m a) = touch n a) :
    ∀ (ps : List (Nat × String)) (ls : List α) (p : Nat),
      (applyPairs key touch ls ps)[p]? =
        match lastAssign (ls.map key) ps p with
        | none => ls[p]?
        | some n => ls[p]?.map (touch n)
  | [], ls, p => by simp [applyPairs, lastAssign]
  | q :: ps, ls, p => by
    have h1 : applyPairs key touch ls (q :: ps) =
        applyPairs key touch
          (updFirst (fun a => key a = q.2) (touch q.1) ls) ps := rfl
    rw [h1, applyPairs_getElem? hkey habs ps _ p,
      updFirst_map_key key (touch q.1) (fun a => hkey q.1 a) q.2,
      updFirst_getElem? key (touch q.1) q.2 ls p]
    rcases hla : lastAssign (ls.map key) ps p with _ | n
    · by_cases hf : (ls.map key).findIdx? (fun t => t = q.2) = some p
      all_goals rw [List.findIdx?_map] at hf
      · simp [lastAssign, hla, hf]
      · simp [lastAssign, hla, hf]
    · have hcomp : (touch n ∘ touch q.1) = touch n :=
        funext fun a => habs n q.1 a
      by_cases hf : (ls.map key).findIdx? (fun t => t = q.2) = some p
      all_goals rw [List.findIdx?_map] at hf
      · simp [lastAssign, hla, hf, Option.map_map, hcomp]
      · simp [lastAssign, hla, hf]

theorem applySeq_idem (hkey : ∀ n a, key (touch n a) = key a)
    (habs : ∀ n m a, touch n (touch m a) = touch n a)
    (ls : List α) (seq : List String) :
    applySeq key touch (applySeq key touch ls seq) seq =
      applySeq key touch ls seq := by
  apply List.ext_getElem?
  intro p
  have hmap : (applySeq key touch ls seq).map key = ls.map key :=
    applyPairs_map_key key touch hkey seq.enum ls
  rw [show applySeq key touch (applySeq key touch ls seq) seq =
      applyPairs key touch (applySeq key touch ls seq) seq.enum from rfl,
    applyPairs_getElem? key touch hkey habs seq.enum _ p, hmap,
    show applySeq key touch ls seq = applyPairs key touch ls seq.enum from rfl,
    applyPairs_getElem? key touch hkey habs seq.enum ls p]
  rcases hla : lastAssign (ls.map key) seq.enum p with _ | n
  · rfl
  · have hcomp : (touch n ∘ touch n) = touch n :=
      funext fun a => habs n n a
    simp [Option.map_map, hcomp]

theorem lastAssign_some_mem (ids : List String) :
    ∀ (ps : List (Nat × String)) (p n : Nat),
      lastAssign ids ps p = some n →
      ∃ s, (n, s) ∈ ps ∧ ids.findIdx? (fun t => t = s) = some p
  | [], _, _, h => by simp [lastAssign] at h
  | q :: ps, p, n, h => by
    rcases hla : lastAssign ids ps p with _ | m
    · simp only [lastAssign, hla] at h
      by_cases hf : ids.findIdx? (fun t => t = q.2) = some p
      · simp only [hf, if_pos] at h
        injection h with h
        refine ⟨q.2, ?_, hf⟩
        have hq : (n, q.2) = q := by rw [← h]
        rw [hq]
        exact List.mem_cons_self _ _
      · simp [hf] at h
    · simp only [lastAssign, hla] at h
      injection h with h
      subst h
      obtain ⟨s, hs, hfi⟩ := lastAssign_some_mem ids ps p m hla
      exact ⟨s, List.mem_cons_of_mem _ hs, hfi⟩

theorem findIdx?_some_getElem? {ids : List String} {s : String} {p : Nat}
    (h : ids.findIdx? (fun t => t = s) = some p) : ids[p]? = some s := by
  induction ids generalizing p with
  | nil => simp at h
  | cons a as ih =>
    rw [List.findIdx?_cons, List.findIdx?_succ] at h
    by_cases ha : a = s
    · rw [if_pos (by simp [ha])] at h
      injection h with h
      simp [← h, ha]
    · rw [if_neg (by simp [ha]), Option.map_eq_some'] at h
      obtain ⟨m, hm, hp⟩ := h
      subst hp
      simpa using ih hm

theorem applySeq_length (hkey : ∀ n a, key (touch n a) = key a)
    (ls : List α) (seq : List String) :
    (applySeq key touch ls seq).length = ls.length := by
  have h := applyPairs_map_key key touch hkey seq.enum ls
  have h2 := congrArg List.length h
  simpa using h2

theorem applySeq_frame (hkey : ∀ n a, key (touch n a) = key a)
    (habs : ∀ n m a, touch n (touch m a) = touch n a)
    (ls : List α) (seq : List String) (p : Nat) (a0 : α)
    (h0 : ls[p]? = some a0) (hnot : ¬ key a0 ∈ seq) :
    (applySeq key touch ls seq)[p]? = some a0 := by
  rw [show applySeq key touch ls seq = applyPairs key touch ls seq.enum
      from rfl,
    applyPairs_getElem? key touch hkey habs seq.enum ls p]
  rcases hla : lastAssign (ls.map key) seq.enum p with _ | n
  · exact h0
  · exfalso
    obtain ⟨s, hmem, hfi⟩ := lastAssign_some_mem (ls.map key) seq.enum p n hla
    have hid : (ls.map key)[p]? = some s := findIdx?_some_getElem? hfi
    have hid2 : (ls.map key)[p]? = some (key a0) := by
      rw [List.getElem?_map, h0]
      rfl
    have hs : s = key a0 := by
      rw [hid] at hid2
      exact Option.some_inj.mp hid2
    have hsm : seq[n]? = some s := List.mk_mem_enum_iff_getElem?.mp hmem
    exact hnot (hs ▸ List.getElem?_mem hsm)

theorem applySeq_spec (hkey : ∀ n a, key (touch n a) = key a)
    (habs : ∀ n m a, touch n (touch m a) = touch n a)
    (ls : List α) (seq : List String) (p : Nat) (a0 : α)
    (h0 : ls[p]? = some a0) :
    ∃ a1, (applySeq key touch ls seq)[p]? = some a1 ∧
      (a1 = a0 ∨ ∃ n, seq[n]? = some (key a0) ∧ a1 = touch n a0) := by
  rw [show applySeq key touch ls seq = applyPairs key touch ls seq.enum
      from rfl,
    applyPairs_getElem? key touch hkey habs seq.enum ls p]
  rcases hla : lastAssign (ls.map key) seq.enum p with _ | n
  · exact ⟨a0, h0, Or.inl rfl⟩
  · refine ⟨touch n a0, by rw [h0]; rfl, Or.inr ⟨n, ?_, rfl⟩⟩
    obtain ⟨s, hmem, hfi⟩ := lastAssign_some_mem (ls.map key) seq.enum p n hla
    have hid : (ls.map key)[p]? = some s := findIdx?_some_getElem? hfi
    have hid2 : (ls.map key)[p]? = some (key a0) := by
      rw [List.getElem?_map, h0]
      rfl
    have hs : s = key a0 := by
      rw [hid] at hid2
      exact Option.some_inj.mp hid2
    rw [← hs]
    exact List.mk_mem_enum_iff_getElem?.mp hmem

end OrderingLemmas

/-- C7: for every sibling scope and every target sequence of ids, applying
the order recomputation (`updateFolderOrder` / `updateSubfolderOrder` /
`updateLinkOrder`) twice with the same sequence yields exactly the same
order values as applying it once: the second application is a no-op in
effect. -/
theorem orderRecomputation_idempotent (folders : List Folder)
    (links : List Link) (parentId folderId : String) (seq : List String) :
    updateFolderOrder (updateFolderOrder folders seq) seq =
        updateFolderOrder folders seq ∧
    updateSubfolderOrder (updateSubfolderOrder folders parentId seq)
        parentId seq = updateSubfolderOrder folders parentId seq ∧
    updateLinkOrder (updateLinkOrder links folderId seq) folderId seq =
        updateLinkOrder links folderId seq :=
  ⟨applySeq_idem Folder.id (fun n f => { f with order := Int.ofNat n })
      (fun _ _ => rfl) (fun _ _ _ => rfl) folders seq,
   applySeq_idem Folder.id
      (fun n f => { f with order := Int.ofNat n, parentId := some parentId })
      (fun _ _ => rfl) (fun _ _ _ => rfl) folders seq,
   applySeq_idem Link.id
      (fun n l => { l with order := Int.ofNat n, folderId := some folderId })
      (fun _ _ => rfl) (fun _ _ _ => rfl) links seq⟩

/-- C8 counterexample: the order recomputation does *not* mutate only the
`order` field.  `updateLinkOrder` also overwrites `folderId` with the scope's
folder: for a link stored under folder `g`, renumbering it inside the scope
of folder `f` changes its `folderId` from `g` to `f`. -/
theorem updateLinkOrder_mutates_folderId :
    ¬ (∀ l ∈ updateLinkOrder
          [{ id := "L1", title := "t", url := "u",
             folderId := some "g", order := 7 }] "f" ["L1"],
        l.folderId = some "g") := by
  decide

/-- C8 (amended): the order recomputation assigns each sequenced entity
`order := index`; `updateLinkOrder` additionally sets the link's `folderId`
to the scope's folder and `updateSubfolderOrder` additionally sets the
folder's `parentId` to the scope's parent; all other fields are preserved,
and any entity whose id is not in the sequence is left completely
unchanged (`updateFolderOrder` touches only `order`). -/
theorem orderRecomputation_frame :
    (∀ (links : List Link) (folderId : String) (seq : List String)
        (p : Nat) (l0 : Link), links[p]? = some l0 →
      (¬ l0.id ∈ seq → (updateLinkOrder links folderId seq)[p]? = some l0) ∧
      ∃ l1, (updateLinkOrder links folderId seq)[p]? = some l1 ∧
        l1.id = l0.id ∧ l1.title = l0.title ∧ l1.url = l0.url ∧
        (l1 = l0 ∨ (l1.folderId = some folderId ∧
          ∃ n, seq[n]? = some l0.id ∧ l1.order = Int.ofNat n))) ∧
    (∀ (folders : List Folder) (parentId : String) (seq : List String)
        (p : Nat) (f0 : Folder), folders[p]? = some f0 →
      (¬ f0.id ∈ seq →
        (updateSubfolderOrder folders parentId seq)[p]? = some f0) ∧
      ∃ f1, (updateSubfolderOrder folders parentId seq)[p]? = some f1 ∧
        f1.id = f0.id ∧ f1.name = f0.name ∧
        (f1 = f0 ∨ (f1.parentId = some parentId ∧
          ∃ n, seq[n]? = some f0.id ∧ f1.order = Int.ofNat n))) ∧
    (∀ (folders : List Folder) (seq : List String)
        (p : Nat) (f0 : Folder), folders[p]? = some f0 →
      (¬ f0.id ∈ seq → (updateFolderOrder folders seq)[p]? = some f0) ∧
      ∃ f1, (updateFolderOrder folders seq)[p]? = some f1 ∧
        f1.id = f0.id ∧ f1.name = f0.name ∧ f1.parentId = f0.parentId ∧
        (f1 = f0 ∨ ∃ n, seq[n]? = some f0.id ∧ f1.order = Int.ofNat n)) := by
  refine ⟨?_, ?_, ?_⟩
  · intro links folderId seq p l0 h0
    refine ⟨fun hnot => applySeq_frame Link.id
      (fun n l => { l with order := Int.ofNat n, folderId := some folderId })
      (fun _ _ => rfl) (fun _ _ _ => rfl) links seq p l0 h0 hnot, ?_⟩
    obtain ⟨l1, h1, hcase⟩ := applySeq_spec Link.id
      (fun n l => { l with order := Int.ofNat n, folderId := some folderId })
      (fun _ _ => rfl) (fun _ _ _ => rfl) links seq p l0 h0
    rcases hcase with rfl | ⟨n, hn, rfl⟩
    · exact ⟨l1, h1, rfl, rfl, rfl, Or.inl rfl⟩
    · exact ⟨_, h1, rfl, rfl, rfl, Or.inr ⟨rfl, n, hn, rfl⟩⟩
  · intro folders parentId seq p f0 h0
    refine ⟨fun hnot => applySeq_frame Folder.id
      (fun n f => { f with order := Int.ofNat n, parentId := some parentId })
      (fun _ _ => rfl) (fun _ _ _ => rfl) folders seq p f0 h0 hnot, ?_⟩
    obtain ⟨f1, h1, hcase⟩ := applySeq_spec Folder.id
      (fun n f => { f with order := Int.ofNat n, parentId := some parentId })
      (fun _ _ => rfl) (fun _ _ _ => rfl) folders seq p f0 h0
    rcases hcase with rfl | ⟨n, hn, rfl⟩
    · exact ⟨f1, h1, rfl, rfl, Or.inl rfl⟩
    · exact ⟨_, h1, rfl, rfl, Or.inr ⟨rfl, n, hn, rfl⟩⟩
  · intro folders seq p f0 h0
    refine ⟨fun hnot => applySeq_frame Folder.id
      (fun n f => { f with order := Int.ofNat n })
      (fun _ _ => rfl) (fun _ _ _ => rfl) folders seq p f0 h0 hnot, ?_⟩
    obtain ⟨f1, h1, hcase⟩ := applySeq_spec Folder.id
      (fun n f => { f with order := Int.ofNat n })
      (fun _ _ => rfl) (fun _ _ _ => rfl) folders seq p f0 h0
    rcases hcase with rfl | ⟨n, hn, rfl⟩
    · exact ⟨f1, h1, rfl, rfl, rfl, Or.inl rfl⟩
    · exact ⟨_, h1, rfl, rfl, rfl, Or.inr ⟨n, hn, rfl⟩⟩

/-- Witness for the amended C8 theorem at a concrete input: one link stored
under `g`, renumbered in the scope of folder `f` at sequence position 0. -/
theorem orderRecomputation_frame_witness :
    ([({ id := "L1", title := "t", url := "u", folderId := some "g",
         order := 7 } : Link)][0]? = some
      { id := "L1", title := "t", url := "u", folderId := some "g",
        order := 7 }) ∧
    (∃ l1, (updateLinkOrder
        [{ id := "L1", title := "t", url := "u", folderId := some "g",
           order := 7 }] "f" ["L1"])[0]? = some l1 ∧
      l1.id = "L1" ∧ l1.title = "t" ∧ l1.url = "u" ∧
      (l1 = { id := "L1", title := "t", url := "u", folderId := some "g",
              order := 7 } ∨
        (l1.folderId = some "f" ∧
          ∃ n, ["L1"][n]? = some "L1" ∧ l1.order = Int.ofNat n))) :=
  ⟨by decide,
   (orderRecomputation_frame.1
      [{ id := "L1", title := "t", url := "u", folderId := some "g",
         order := 7 }] "f" ["L1"] 0
      { id := "L1", title := "t", url := "u", folderId := some "g",
        order := 7 } (by decide)).2⟩

/-- C5 counterexample: folder creation does *not* assign
`order = count of existing siblings`.  With folders `f1` (root) and `f2`
(child of `f1`), creating root folder `f3` gives it
`order = bookmarkData.folders.length = 2`, while it has only one existing
sibling (`f1`). -/
theorem saveFolderCreate_order_not_sibling_count :
    ¬ (∀ f ∈ (saveFolderCreate
          { folders := [{ id := "f1", name := "A", parentId := none,
                          order := 0 },
                        { id := "f2", name := "B", parentId := some "f1",
                          order := 0 }],
            links := [] } "f3" "C" none).folders,
        f.id = "f3" →
        f.order = Int.ofNat
          ([{ id := "f1", name := "A", parentId := none, order := 0 },
            { id := "f2", name := "B", parentId := some "f1",
              order := 0 }].filter
            (fun g : Folder => g.parentId = (none : Option String))).length) := by
  decide

/-- C5 (amended): folder creation appends a new folder whose `order` is the
total number of folders already in the store (across all parents), which
equals the sibling count only when every existing folder shares the new
folder's `parentId`. -/
theorem saveFolderCreate_order_eq_total_count (data : BookmarkData)
    (newId name : String) (parentId : Option String) (h : ¬ name = "") :
    ∃ f, (saveFolderCreate data newId name parentId).folders =
        data.folders ++ [f] ∧
      f.order = Int.ofNat data.folders.length ∧
      f.id = newId ∧ f.name = name ∧ f.parentId = parentId :=
  ⟨{ id := newId, name := name, parentId := parentId,
     order := Int.ofNat data.folders.length },
   by simp [saveFolderCreate, h], rfl, rfl, rfl, rfl⟩

/-- Witness for the amended C5 theorem on an empty store. -/
theorem saveFolderCreate_order_eq_total_count_witness :
    (¬ ("Work" : String) = "") ∧
    ∃ f, (saveFolderCreate { folders := [], links := [] } "f1" "Work"
          none).folders = [] ++ [f] ∧
      f.order = Int.ofNat ([] : List Folder).length ∧
      f.id = "f1" ∧ f.name = "Work" ∧ f.parentId = none :=
  ⟨by decide,
   saveFolderCreate_order_eq_total_count { folders := [], links := [] }
     "f1" "Work" none (by decide)⟩

/-- C9 counterexample: on load, a link with no `folderId` property is *not*
defaulted to `null` — the main.js load loop touches only `order` on links
(and `order`/`parentId` on folders), so the property stays absent. -/
theorem loadData_link_folderId_not_defaulted :
    ¬ (∀ l ∈ loadDataLinks
          (some [{ id := "L", title := "t", url := "u", folderId := none,
                   order := none }]),
        l.folderId = some none) := by
  decide

/-- C9 (amended): on load a missing `folders`/`links` field defaults to the
empty sequence; every folder or link missing `order` is assigned its
position in the loaded array; a folder missing `parentId` is defaulted to
`null`; but a link's missing `folderId` is left absent, not defaulted. -/
theorem loadData_defaults :
    (loadDataFolders none = [] ∧ loadDataLinks none = []) ∧
    (∀ (fs : List RawFolder) (i : Nat) (f : RawFolder), fs[i]? = some f →
      ∃ f', (loadDataFolders (some fs))[i]? = some f' ∧
        f'.id = f.id ∧ f'.name = f.name ∧
        f'.order = some (f.order.getD (Int.ofNat i)) ∧
        f'.parentId = some (f.parentId.getD none)) ∧
    (∀ (ls : List RawLink) (i : Nat) (l : RawLink), ls[i]? = some l →
      ∃ l', (loadDataLinks (some ls))[i]? = some l' ∧
        l'.id = l.id ∧ l'.title = l.title ∧ l'.url = l.url ∧
        l'.order = some (l.order.getD (Int.ofNat i)) ∧
        l'.folderId = l.folderId) := by
  refine ⟨⟨rfl, rfl⟩, ?_, ?_⟩
  · intro fs i f h
    refine ⟨{ f with
        order := some (f.order.getD (Int.ofNat i)),
        parentId := some (f.parentId.getD none) },
      ?_, rfl, rfl, rfl, rfl⟩
    simp [loadDataFolders, List.getElem?_enum, h]
  · intro ls i l h
    refine ⟨{ l with order := some (l.order.getD (Int.ofNat i)) },
      ?_, rfl, rfl, rfl, rfl, rfl⟩
    simp [loadDataLinks, List.getElem?_enum, h]

/-- Witness for the amended C9 theorem: one folder and one link, both with
every defaultable property missing. -/
theorem loadData_defaults_witness :
    (([{ id := "F", name := "n", parentId := none, order := none }] :
        List RawFolder)[0]? = some
      { id := "F", name := "n", parentId := none, order := none }) ∧
    (∃ f', (loadDataFolders
        (some [{ id := "F", name := "n", parentId := none,
                 order := none }]))[0]? = some f' ∧
      f'.id = "F" ∧ f'.name = "n" ∧
      f'.order = some ((none : Option Int).getD (Int.ofNat 0)) ∧
      f'.parentId = some ((none : Option (Option String)).getD none)) :=
  ⟨by decide,
   loadData_defaults.2.1
     [{ id := "F", name := "n", parentId := none, order := none }] 0
     { id := "F", name := "n", parentId := none, order := none }
     (by decide)⟩

/-- C4 counterexample: in main.js, activating a folder when the store holds
zero folders (so no DOM element exists for any folder id) is *not* a no-op:
`querySelector` returns `null` and `folder.classList.add('selected')`
throws a `TypeError`.  The thrown path is the `none` result. -/
theorem toggleFolder_throws_on_empty_store :
    toggleFolder { folders := [], links := [] }
      { expanded := [], selected := [], currentFolder := none,
        domFolders := [] } "f1" = none := by
  decide

/-- C4 (amended): the modular `FolderManager.toggleFolder` guards the
missing element (`if (!folder) return;`) and is a genuine no-op that does
not throw when the store has zero folders; the legacy main.js
`toggleFolder` instead throws a `TypeError`. -/
theorem toggleFolderFM_noop_on_empty_store (data : BookmarkData)
    (ui : UIState) (folderId : String) (hstore : data.folders = [])
    (hdom : ¬ folderId ∈ ui.domFolders) :
    toggleFolderFM data ui folderId = ui := by
  simp [toggleFolderFM, hdom]

/-- Witness for the amended C4 theorem on a concrete empty session. -/
theorem toggleFolderFM_noop_on_empty_store_witness :
    (({ folders := [], links := [] } : BookmarkData).folders = [] ∧
      ¬ ("f1" : String) ∈ ({
        expanded := [], selected := [], currentFolder := none,
        domFolders := [] } : UIState).domFolders) ∧
    toggleFolderFM { folders := [], links := [] }
      { expanded := [], selected := [], currentFolder := none,
        domFolders := ([] : List String) } "f1" =
      { expanded := [], selected := [], currentFolder := none,
        domFolders := ([] : List String) } :=
  ⟨⟨by decide, by decide⟩,
   toggleFolderFM_noop_on_empty_store { folders := [], links := [] }
     { expanded := [], selected := [], currentFolder := none,
       domFolders := ([] : List String) } "f1" (by decide) (by decide)⟩

/-- C2 counterexample: it is not true that every expanded folder with at
least one subfolder stays expanded across `activate`: activating folder `b`,
itself expanded and having subfolder `c`, toggles `b` to collapsed. -/
theorem toggleFolder_collapses_expanded_target_with_children :
    hasSubfolders
      { folders := [{ id := "b", name := "B", parentId := none, order := 0 },
                    { id := "c", name := "C", parentId := some "b",
                      order := 0 }],
        links := [] } "b" = true ∧
    ("b" : String) ∈ (["b"] : List String) ∧
    (∃ ui', toggleFolder
        { folders := [{ id := "b", name := "B", parentId := none,
                        order := 0 },
                      { id := "c", name := "C", parentId := some "b",
                        order := 0 }],
          links := [] }
        { expanded := ["b"], selected := [], currentFolder := none,
          domFolders := ["b", "c"] } "b" = some ui' ∧
      ¬ ("b" : String) ∈ ui'.expanded) := by
  refine ⟨by decide, by decide, ?_⟩
  exact ⟨_, rfl, by decide⟩

/-- C2 (amended): `activate(folderId)` collapses every currently expanded
folder that is not `folderId` and has no subfolders; every expanded folder
with at least one subfolder *other than `folderId` itself* stays expanded
(`folderId` toggles: it expands when collapsed and collapses when already
expanded); `folderId` becomes the current folder. -/
theorem activate_autoclose (data : BookmarkData) (ui : UIState)
    (folderId : String) (ui' : UIState)
    (h : toggleFolder data ui folderId = some ui') :
    (∀ id ∈ ui.expanded, ¬ id = folderId → hasSubfolders data id = false →
      ¬ id ∈ ui'.expanded) ∧
    (∀ id ∈ ui.expanded, ¬ id = folderId → hasSubfolders data id = true →
      id ∈ ui'.expanded) ∧
    (¬ folderId ∈ ui.expanded → folderId ∈ ui'.expanded) ∧
    (folderId ∈ ui.expanded → ¬ folderId ∈ ui'.expanded) ∧
    ui'.currentFolder = some folderId := by
  by_cases hdom : folderId ∈ ui.domFolders
  · rw [toggleFolder, if_pos hdom, Option.some_inj] at h
    subst h
    rw [toggleFolderCore]
    by_cases hexp : folderId ∈ ui.expanded
    · rw [if_pos (by
        simp [autoCloseEmptyFolders, List.mem_filter, hexp])]
      refine ⟨?_, ?_, fun hc => absurd hexp hc, fun _ => ?_, rfl⟩
      · intro id hid hne hsub hmem
        simp only [autoCloseEmptyFolders, List.mem_filter] at hmem
        simp [hne, hsub] at hmem
      · intro id hid hne hsub
        simp [autoCloseEmptyFolders, List.mem_filter, hid, hne, hsub]
      · intro hmem
        simp [autoCloseEmptyFolders, List.mem_filter] at hmem
    · rw [if_neg (by
        simp [autoCloseEmptyFolders, List.mem_filter, hexp])]
      refine ⟨?_, ?_, fun _ => by simp, fun hc => absurd hc hexp, rfl⟩
      · intro id hid hne hsub hmem
        simp only [List.mem_cons] at hmem
        rcases hmem with rfl | hmem
        · exact hne rfl
        · simp only [autoCloseEmptyFolders, List.mem_filter] at hmem
          simp [hne, hsub] at hmem
      · intro id hid hne hsub
        simp [autoCloseEmptyFolders, List.mem_filter, hid, hne, hsub]
  · rw [toggleFolder, if_neg hdom] at h
    exact absurd h (by simp)

/-- Witness for the amended C2 theorem on the spec's scenario: A is
childless and expanded, B is expanded and has child D, and activating the
distinct folder C leaves A collapsed, B expanded, and C expanded and
current. -/
theorem activate_autoclose_witness :
    (toggleFolder
        { folders := [{ id := "A", name := "A", parentId := none,
                        order := 0 },
                      { id := "B", name := "B", parentId := none,
                        order := 1 },
                      { id := "D", name := "D", parentId := some "B",
                        order := 0 },
                      { id := "C", name := "C", parentId := none,
                        order := 2 }],
          links := [] }
        { expanded := ["A", "B"], selected := [], currentFolder := none,
          domFolders := ["A", "B", "D", "C"] } "C" = some
      { expanded := ["C", "B"], selected := ["C"],
        currentFolder := some "C", domFolders := ["A", "B", "D", "C"] }) ∧
    ((∀ id ∈ (["A", "B"] : List String), ¬ id = "C" →
        hasSubfolders
          { folders := [{ id := "A", name := "A", parentId := none,
                          order := 0 },
                        { id := "B", name := "B", parentId := none,
                          order := 1 },
                        { id := "D", name := "D", parentId := some "B",
                          order := 0 },
                        { id := "C", name := "C", parentId := none,
                          order := 2 }],
            links := [] } id = false →
        ¬ id ∈ (["C", "B"] : List String)) ∧
      (∀ id ∈ (["A", "B"] : List String), ¬ id = "C" →
        hasSubfolders
          { folders := [{ id := "A", name := "A", parentId := none,
                          order := 0 },
                        { id := "B", name := "B", parentId := none,
                          order := 1 },
                        { id := "D", name := "D", parentId := some "B",
                          order := 0 },
                        { id := "C", name := "C", parentId := none,
                          order := 2 }],
            links := [] } id = true →
        id ∈ (["C", "B"] : List String)) ∧
      (¬ ("C" : String) ∈ (["A", "B"] : List String) →
        ("C" : String) ∈ (["C", "B"] : List String)) ∧
      (("C" : String) ∈ (["A", "B"] : List String) →
        ¬ ("C" : String) ∈ (["C", "B"] : List String)) ∧
      (some "C" : Option String) = some "C") :=
  ⟨by decide,
   activate_autoclose
     { folders := [{ id := "A", name := "A", parentId := none, order := 0 },
                   { id := "B", name := "B", parentId := none, order := 1 },
                   { id := "D", name := "D", parentId := some "B",
                     order := 0 },
                   { id := "C", name := "C", parentId := none, order := 2 }],
       links := [] }
     { expanded := ["A", "B"], selected := [], currentFolder := none,
       domFolders := ["A", "B", "D", "C"] } "C"
     { expanded := ["C", "B"], selected := ["C"], currentFolder := some "C",
       domFolders := ["A", "B", "D", "C"] } (by decide)⟩

theorem updFirst_fuse {α : Type} (p : α → Bool) (g1 g2 : α → α)
    (hg : ∀ a, p (g1 a) = p a) :
    ∀ ls : List α, updFirst p g2 (updFirst p g1 ls) =
      updFirst p (fun a => g2 (g1 a)) ls
  | [] => rfl
  | a :: as => by
    by_cases h : p a = true
    · simp [updFirst, h, hg]
    · simp [updFirst, h, updFirst_fuse p g1 g2 hg as]

theorem updFirst_find? {α : Type} (p : α → Bool) (g : α → α)
    (hg : ∀ a, p (g a) = p a) :
    ∀ ls : List α, (updFirst p g ls).find? p = (ls.find? p).map g
  | [] => rfl
  | a :: as => by
    by_cases h : p a = true
    · simp [updFirst, h, List.find?_cons, hg]
    · simp [updFirst, h, List.find?_cons, updFirst_find? p g hg as]

theorem updFirst_filter_not {α : Type} (p : α → Bool) (g : α → α)
    (hg : ∀ a, p (g a) = p a) :
    ∀ ls : List α, (updFirst p g ls).filter (fun a => ! p a) =
      ls.filter (fun a => ! p a)
  | [] => rfl
  | a :: as => by
    by_cases h : p a = true
    · simp [updFirst, h, hg]
    · simp [updFirst, h, updFirst_filter_not p g hg as]

theorem updFirst_count_folderId (k fid : String) :
    ∀ (ls : List Link),
      (ls.map Link.id).Nodup →
      (∃ l0, ls.find? (fun l => l.id = k) = some l0) →
      ((updFirst (fun l => l.id = k)
          (fun l => { l with folderId := some fid }) ls).filter
        (fun l => l.folderId = some fid)).length =
      (ls.filter (fun l => ¬ l.id = k ∧ l.folderId = some fid)).length + 1
  | [], _, hex => by
    obtain ⟨l0, h0⟩ := hex
    simp at h0
  | a :: as, hnd, hex => by
    by_cases ha : a.id = k
    · have htail : ∀ x ∈ as, ¬ x.id = k := by
        intro x hx hxk
        simp [List.nodup_cons] at hnd
        exact hnd.1 x hx (hxk.trans ha.symm)
      have hcongr : as.filter
            (fun l => !decide (l.id = k) && decide (l.folderId = some fid)) =
          as.filter (fun l => decide (l.folderId = some fid)) := by
        apply List.filter_congr
        intro x hx
        simp [htail x hx]
      simp [updFirst, ha, List.filter_cons, hcongr, Nat.add_comm]
    · have hex2 : ∃ l0, as.find? (fun l => l.id = k) = some l0 := by
        obtain ⟨l0, h0⟩ := hex
        rw [List.find?_cons_of_neg _ (by simp [ha])] at h0
        exact ⟨l0, h0⟩
      have hnd2 : (as.map Link.id).Nodup := by
        simp [List.nodup_cons] at hnd
        exact hnd.2
      by_cases hafid : a.folderId = some fid
      · simp [updFirst, ha, List.filter_cons, hafid,
          updFirst_count_folderId k fid as hnd2 hex2]
      · simp [updFirst, ha, List.filter_cons, hafid,
          updFirst_count_folderId k fid as hnd2 hex2]

/-- The mutated link list of `moveLink`, with the two first-match updates
fused into one. -/
theorem moveLink_links (data : BookmarkData) (linkId fid : String)
    (l0 : Link)
    (hfind : data.links.find? (fun l => l.id = linkId) = some l0) :
    (moveLink data linkId fid).links =
      updFirst (fun l => l.id = linkId)
        (fun l => { l with
          folderId := some fid,
          order := Int.ofNat ((updFirst (fun l => l.id = linkId)
            (fun l => { l with folderId := some fid }) data.links).filter
              (fun l => l.folderId = some fid)).length })
        data.links := by
  rw [moveLink, hfind]
  exact updFirst_fuse (fun l : Link => l.id = linkId)
    (fun l => { l with folderId := some fid })
    (fun l => { l with
      order := Int.ofNat ((updFirst (fun l : Link => l.id = linkId)
        (fun l => { l with folderId := some fid }) data.links).filter
          (fun l => l.folderId = some fid)).length })
    (fun a => rfl) data.links

/-- C6 counterexample: `moveLink` does *not* always place the moved link at
the end of the destination folder's sibling list.  Destination `g` holds
`L1` with `order = 5`; moving `L2` into `g` assigns it
`order = 2` (the post-move count), which sorts *before* `L1`. -/
theorem moveLink_not_placed_at_end :
    ¬ (∀ lm ∈ (moveLink
          { folders := [],
            links := [{ id := "L1", title := "t", url := "u",
                        folderId := some "g", order := 5 },
                      { id := "L2", title := "t", url := "u",
                        folderId := some "f", order := 0 }] }
          "L2" "g").links,
        lm.id = "L2" →
        ∀ l ∈ (moveLink
            { folders := [],
              links := [{ id := "L1", title := "t", url := "u",
                          folderId := some "g", order := 5 },
                        { id := "L2", title := "t", url := "u",
                          folderId := some "f", order := 0 }] }
            "L2" "g").links,
          ¬ l.id = "L2" → l.folderId = some "g" → l.order < lm.order) := by
  decide

/-- C6 (amended): `moveLink` sets the moved link's `folderId` to the
destination and its `order` to the number of links in the destination folder
counted *after* the move (the moved link itself included, i.e. one more than
the count of other links already there); every other link, and the folder
list, are unchanged.  The link lands after every existing destination link
only when their orders are all below this count (e.g. dense 0-based), not in
general. -/
theorem moveLink_sets_folder_and_order (data : BookmarkData)
    (linkId fid : String) (l0 : Link)
    (hnd : (data.links.map Link.id).Nodup)
    (hfind : data.links.find? (fun l => l.id = linkId) = some l0) :
    ((moveLink data linkId fid).links.find? (fun l => l.id = linkId) =
      some { l0 with
        folderId := some fid,
        order := Int.ofNat ((data.links.filter
          (fun l => ¬ l.id = linkId ∧ l.folderId = some fid)).length + 1) }) ∧
    (moveLink data linkId fid).links.filter (fun l => ¬ l.id = linkId) =
      data.links.filter (fun l => ¬ l.id = linkId) ∧
    (moveLink data linkId fid).folders = data.folders := by
  have hlinks := moveLink_links data linkId fid l0 hfind
  have hcnt := updFirst_count_folderId linkId fid data.links hnd ⟨l0, hfind⟩
  refine ⟨?_, ?_, ?_⟩
  · rw [hlinks,
      updFirst_find? (fun l : Link => l.id = linkId)
        (fun l => { l with
          folderId := some fid,
          order := Int.ofNat ((updFirst (fun l : Link => l.id = linkId)
            (fun l => { l with folderId := some fid }) data.links).filter
              (fun l => l.folderId = some fid)).length })
        (fun a => rfl) data.links,
      hfind, hcnt]
    rfl
  · have h := updFirst_filter_not (fun l : Link => l.id = linkId)
      (fun l => { l with
        folderId := some fid,
        order := Int.ofNat ((updFirst (fun l : Link => l.id = linkId)
          (fun l => { l with folderId := some fid }) data.links).filter
            (fun l => l.folderId = some fid)).length })
      (fun a => rfl) data.links
    rw [hlinks]
    simpa [decide_not] using h
  · rw [moveLink, hfind]

/-- Witness for the amended C6 theorem: moving `L2` from folder `f` into
folder `g`, which already holds `L1`. -/
theorem moveLink_sets_folder_and_order_witness :
    (([{ id := "L1", title := "t", url := "u", folderId := some "g",
         order := 5 },
       { id := "L2", title := "t", url := "u", folderId := some "f",
         order := 0 }].map Link.id).Nodup ∧
      ([{ id := "L1", title := "t", url := "u", folderId := some "g",
          order := 5 },
        { id := "L2", title := "t", url := "u", folderId := some "f",
          order := 0 }] : List Link).find? (fun l => l.id = "L2") = some
        { id := "L2", title := "t", url := "u", folderId := some "f",
          order := 0 }) ∧
    ((moveLink
        { folders := [],
          links := [{ id := "L1", title := "t", url := "u",
                      folderId := some "g", order := 5 },
                    { id := "L2", title := "t", url := "u",
                      folderId := some "f", order := 0 }] }
        "L2" "g").links.find? (fun l => l.id = "L2") = some
      { id := "L2", title := "t", url := "u", folderId := some "g",
        order := Int.ofNat
          (([{ id := "L1", title := "t", url := "u",
               folderId := some "g", order := 5 },
             { id := "L2", title := "t", url := "u",
               folderId := some "f", order := 0 }].filter
            (fun l : Link =>
              ¬ l.id = "L2" ∧ l.folderId = some "g")).length + 1) }) := by
  refine ⟨⟨by decide, by decide⟩, ?_⟩
  exact (moveLink_sets_folder_and_order
    { folders := [],
      links := [{ id := "L1", title := "t", url := "u",
                  folderId := some "g", order := 5 },
                { id := "L2", title := "t", url := "u",
                  folderId := some "f", order := 0 }] }
    "L2" "g"
    { id := "L2", title := "t", url := "u", folderId := some "f",
      order := 0 } (by decide) (by decide)).1

/-! ### Termination of the unguarded recursions under acyclicity -/

theorem nodup_length_le_of_mem {vs ids : List String} (hnd : vs.Nodup)
    (hsub : ∀ v ∈ vs, v ∈ ids) : vs.length ≤ ids.length := by
  have h1 : vs.toFinset.card = vs.length := List.toFinset_card_of_nodup hnd
  have h2 : vs.toFinset ⊆ ids.toFinset := by
    intro v hv
    rw [List.mem_toFinset] at hv ⊢
    exact hsub v hv
  calc vs.length = vs.toFinset.card := h1.symm
    _ ≤ ids.toFinset.card := Finset.card_le_card h2
    _ ≤ ids.length := ids.toFinset_card_le

theorem nodup_length_le_of_mem_or {vs ids : List String} {x0 : String}
    (hnd : vs.Nodup) (hsub : ∀ v ∈ vs, v ∈ ids ∨ v = x0) :
    vs.length ≤ ids.length + 1 := by
  have h1 : vs.toFinset.card = vs.length := List.toFinset_card_of_nodup hnd
  have h2 : vs.toFinset ⊆ insert x0 ids.toFinset := by
    intro v hv
    rw [List.mem_toFinset] at hv
    rcases hsub v hv with h | h
    · exact Finset.mem_insert_of_mem (List.mem_toFinset.mpr h)
    · exact h ▸ Finset.mem_insert_self _ _
  calc vs.length = vs.toFinset.card := h1.symm
    _ ≤ (insert x0 ids.toFinset).card := Finset.card_le_card h2
    _ ≤ ids.toFinset.card + 1 := Finset.card_insert_le _ _
    _ ≤ ids.length + 1 := Nat.add_le_add_right ids.toFinset_card_le 1

/-- A decreasing rank function on parent steps certifies acyclicity. -/
theorem acyclic_of_rank (folders : List Folder) (rank : String → Nat)
    (h : ∀ x y, stepUp folders x y → rank y < rank x) : Acyclic folders := by
  intro x hx
  have hlt : ∀ a b, Ancestor folders a b → rank b < rank a := by
    intro a b hab
    induction hab with
    | single hs => exact h _ _ hs
    | tail _ hs ih => exact (h _ _ hs).trans ih
  exact absurd (hlt x x hx) (lt_irrefl _)

/-- With enough fuel (`|folders| + 1` on a first call), the ancestor walk of
`isDescendant` never exhausts its fuel when the parent graph is acyclic. -/
theorem isDescendant_ne_none (folders : List Folder) (hac : Acyclic folders)
    (target : String) :
    ∀ (fuel : Nat) (vs : List String) (c : String),
      vs.Nodup → (∀ v ∈ vs, v ∈ folders.map Folder.id) →
      (∀ v ∈ vs, Ancestor folders v c) →
      folders.length + 1 ≤ fuel + vs.length →
      ¬ isDescendant folders fuel c target = none
  | 0, vs, c, hnd, hmem, _, hlen => by
    intro _
    have hle := nodup_length_le_of_mem hnd hmem
    rw [List.length_map] at hle
    omega
  | fuel + 1, vs, c, hnd, hmem, hanc, hlen => by
    by_cases hct : c = target
    · simp [isDescendant, hct]
    · cases hfind : folders.find? (fun f => f.id = c) with
      | none => simp [isDescendant, hct, hfind]
      | some f =>
        have hred : isDescendant folders (fuel + 1) c target =
            match f.parentId with
            | none => some false
            | some p => isDescendant folders fuel p target := by
          rw [isDescendant, if_neg hct, hfind]
        cases hp : f.parentId with
        | none => rw [hred, hp]; simp
        | some p =>
          rw [hred, hp]
          have hfc : f.id = c := by
            have := List.find?_some hfind
            simpa using this
          have hfmem : f ∈ folders := List.mem_of_find?_eq_some hfind
          have hcnotvs : ¬ c ∈ vs := fun hcvs => hac c (hanc c hcvs)
          have hstep : stepUp folders c p := ⟨f, hfmem, hfc, hp⟩
          refine isDescendant_ne_none folders hac target fuel (c :: vs) p
            (List.nodup_cons.mpr ⟨hcnotvs, hnd⟩) ?_ ?_ ?_
          · intro v hv
            rcases List.mem_cons.mp hv with rfl | hv
            · rw [← hfc]
              exact List.mem_map_of_mem Folder.id hfmem
            · exact hmem v hv
          · intro v hv
            rcases List.mem_cons.mp hv with rfl | hv
            · exact Relation.TransGen.single hstep
            · exact (hanc v hv).tail hstep
          · rw [List.length_cons]
            omega

/-- Soundness of a `false` answer from the fuelled ancestor walk: when folder
ids are unique, `isDescendant … = some false` really means the parent chain
from `c` never reaches `target`. -/
theorem isDescendant_false_sound (folders : List Folder)
    (hnd : (folders.map Folder.id).Nodup) :
    ∀ (fuel : Nat) (c target : String),
      isDescendant folders fuel c target = some false →
      ¬ Relation.ReflTransGen (stepUp folders) c target
  | 0, c, target, h => by simp [isDescendant] at h
  | fuel + 1, c, target, h => by
    by_cases hct : c = target
    · simp [isDescendant, hct] at h
    · intro hrtg
      rcases Relation.ReflTransGen.cases_head hrtg with rfl | ⟨d, hstep, hrest⟩
      · exact hct rfl
      · obtain ⟨f1, hf1mem, hf1id, hf1p⟩ := hstep
        cases hfind : folders.find? (fun f => f.id = c) with
        | none =>
          have := List.find?_eq_none.mp hfind f1 hf1mem
          simp [hf1id] at this
        | some f =>
          have hred : isDescendant folders (fuel + 1) c target =
              match f.parentId with
              | none => some false
              | some p => isDescendant folders fuel p target := by
            rw [isDescendant, if_neg hct, hfind]
          have hfc : f.id = c := by
            have := List.find?_some hfind
            simpa using this
          have hfmem : f ∈ folders := List.mem_of_find?_eq_some hfind
          have hff1 : f1 = f :=
            List.inj_on_of_nodup_map hnd hf1mem hfmem
              (by rw [hf1id, hfc])
          cases hp : f.parentId with
          | none =>
            rw [hff1, hp] at hf1p
            exact Option.noConfusion hf1p
          | some p =>
            rw [hred, hp] at h
            have hdp : d = p := by
              rw [hff1, hp] at hf1p
              exact (Option.some_inj.mp hf1p).symm
            exact isDescendant_false_sound folders hnd fuel p target h
              (hdp ▸ hrest)

/-- C1: reparenting a folder (saveFolder in edit mode) onto itself or onto
one of its own descendants fails with `CycleError`, and the collection is
returned completely unchanged (no name or parentId mutated): under
acyclicity and unique ids, whenever the new parent equals the folder's id or
is a strict descendant of it, the edit aborts with `CycleError` and the
original store. -/
theorem saveFolderEdit_cycle_rejected (data : BookmarkData) (fuel : Nat)
    (editId name newParent : String)
    (hname : ¬ name = "")
    (hnd : (data.folders.map Folder.id).Nodup)
    (hac : Acyclic data.folders)
    (hmem : editId ∈ data.folders.map Folder.id)
    (hreach : newParent = editId ∨ Ancestor data.folders newParent editId)
    (hfuel : data.folders.length + 1 ≤ fuel) :
    saveFolderEdit data fuel editId name (some newParent) =
      some (data, some SaveError.CycleError) := by
  have hsome : (data.folders.find? (fun g => g.id = editId)).isSome := by
    rw [List.find?_isSome]
    obtain ⟨g, hg, hgid⟩ := List.mem_map.mp hmem
    exact ⟨g, hg, by simp [hgid]⟩
  obtain ⟨f, hfind⟩ := Option.isSome_iff_exists.mp hsome
  have hfid : f.id = editId := by simpa using List.find?_some hfind
  have hterm := isDescendant_ne_none data.folders hac f.id fuel [] newParent
    (by simp) (by simp) (by simp) (by simpa using hfuel)
  cases hb : isDescendant data.folders fuel newParent f.id with
  | none => exact absurd hb hterm
  | some b =>
    cases b with
    | false =>
      exfalso
      have hns := isDescendant_false_sound data.folders hnd fuel newParent
        f.id hb
      apply hns
      rw [hfid]
      rcases hreach with rfl | h
      · exact Relation.ReflTransGen.refl
      · exact h.to_reflTransGen
    | true =>
      rw [saveFolderEdit, if_neg hname, hfind]
      simp [hb]

/-- Witness for the C1 theorem on the spec's scenario: folders
`f1` (root), `f2` (parent `f1`), `f3` (parent `f2`); reparenting `f1` under
`f3` raises `CycleError` and leaves the collection unchanged. -/
theorem saveFolderEdit_cycle_rejected_witness :
    Acyclic [{ id := "f1", name := "F1", parentId := none, order := 0 },
             { id := "f2", name := "F2", parentId := some "f1", order := 1 },
             { id := "f3", name := "F3", parentId := some "f2",
               order := 2 }] ∧
    saveFolderEdit
      { folders := [{ id := "f1", name := "F1", parentId := none,
                      order := 0 },
                    { id := "f2", name := "F2", parentId := some "f1",
                      order := 1 },
                    { id := "f3", name := "F3", parentId := some "f2",
                      order := 2 }],
        links := [] } 4 "f1" "F1" (some "f3") =
      some
        ({ folders := [{ id := "f1", name := "F1", parentId := none,
                         order := 0 },
                       { id := "f2", name := "F2", parentId := some "f1",
                         order := 1 },
                       { id := "f3", name := "F3", parentId := some "f2",
                         order := 2 }],
           links := [] }, some SaveError.CycleError) := by
  have hac : Acyclic
      [{ id := "f1", name := "F1", parentId := none, order := 0 },
       { id := "f2", name := "F2", parentId := some "f1", order := 1 },
       { id := "f3", name := "F3", parentId := some "f2", order := 2 }] := by
    apply acyclic_of_rank _
      (fun s => if s = "f3" then 2 else if s = "f2" then 1 else 0)
    intro x y hs
    obtain ⟨f, hf, hid, hp⟩ := hs
    fin_cases hf
    · simp at hp
    · subst hid
      have hy : y = "f1" := by simpa using hp.symm
      subst hy
      decide
    · subst hid
      have hy : y = "f2" := by simpa using hp.symm
      subst hy
      decide
  refine ⟨hac, ?_⟩
  apply saveFolderEdit_cycle_rejected _ _ _ _ _ (by decide) (by decide) hac
    (by decide) ?_ (by decide)
  refine Or.inr (@Relation.TransGen.head String _ "f3" "f2" "f1" ?_
    (Relation.TransGen.single ?_))
  · exact ⟨{ id := "f3", name := "F3", parentId := some "f2", order := 2 },
      by decide, rfl, rfl⟩
  · exact ⟨{ id := "f2", name := "F2", parentId := some "f1", order := 1 },
      by decide, rfl, rfl⟩

theorem descFold_none (folders : List Folder) (fuel : Nat) :
    ∀ cs : List Folder,
      cs.foldl (fun acc f =>
        match acc with
        | none => none
        | some l =>
          match getAllDescendantFolderIds folders fuel f.id with
          | none => none
          | some ds => some (l ++ f.id :: ds)) none = none
  | [] => rfl
  | c :: cs => descFold_none folders fuel cs

theorem descFold_ne_none (folders : List Folder) (fuel : Nat) :
    ∀ (cs : List Folder) (l0 : List String),
      (∀ f ∈ cs, ¬ getAllDescendantFolderIds folders fuel f.id = none) →
      ¬ cs.foldl (fun acc f =>
        match acc with
        | none => none
        | some l =>
          match getAllDescendantFolderIds folders fuel f.id with
          | none => none
          | some ds => some (l ++ f.id :: ds)) (some l0) = none
  | [], l0, _ => by simp
  | c :: cs, l0, hall => by
    cases hr : getAllDescendantFolderIds folders fuel c.id with
    | none => exact absurd hr (hall c (List.mem_cons_self c cs))
    | some ds =>
      have hred : (c :: cs).foldl (fun acc f =>
          match acc with
          | none => none
          | some l =>
            match getAllDescendantFolderIds folders fuel f.id with
            | none => none
            | some ds => some (l ++ f.id :: ds)) (some l0) =
          cs.foldl (fun acc f =>
            match acc with
            | none => none
            | some l =>
              match getAllDescendantFolderIds folders fuel f.id with
              | none => none
              | some ds => some (l ++ f.id :: ds))
            (some (l0 ++ c.id :: ds)) := by
        rw [List.foldl_cons, hr]
      rw [hred]
      exact descFold_ne_none folders fuel cs _
        (fun f hf => hall f (List.mem_cons_of_mem c hf))

theorem descFold_sound (folders : List Folder) (fuel : Nat) :
    ∀ (cs : List Folder) (l0 res : List String),
      cs.foldl (fun acc f =>
        match acc with
        | none => none
        | some l =>
          match getAllDescendantFolderIds folders fuel f.id with
          | none => none
          | some ds => some (l ++ f.id :: ds)) (some l0) = some res →
      (∀ x ∈ l0, x ∈ res) ∧
      ∀ f ∈ cs, ∃ ds, getAllDescendantFolderIds folders fuel f.id = some ds ∧
        f.id ∈ res ∧ ∀ x ∈ ds, x ∈ res
  | [], l0, res, h => by
    simp at h
    subst h
    exact ⟨fun x hx => hx, by simp⟩
  | c :: cs, l0, res, h => by
    cases hr : getAllDescendantFolderIds folders fuel c.id with
    | none =>
      have hnone : (c :: cs).foldl (fun acc f =>
          match acc with
          | none => none
          | some l =>
            match getAllDescendantFolderIds folders fuel f.id with
            | none => none
            | some ds => some (l ++ f.id :: ds)) (some l0) = none := by
        rw [List.foldl_cons, hr]
        exact descFold_none folders fuel cs
      rw [hnone] at h
      exact Option.noConfusion h
    | some ds =>
      have hred : (c :: cs).foldl (fun acc f =>
          match acc with
          | none => none
          | some l =>
            match getAllDescendantFolderIds folders fuel f.id with
            | none => none
            | some ds => some (l ++ f.id :: ds)) (some l0) =
          cs.foldl (fun acc f =>
            match acc with
            | none => none
            | some l =>
              match getAllDescendantFolderIds folders fuel f.id with
              | none => none
              | some ds => some (l ++ f.id :: ds))
            (some (l0 ++ c.id :: ds)) := by
        rw [List.foldl_cons, hr]
      rw [hred] at h
      obtain ⟨hsub, hrest⟩ := descFold_sound folders fuel cs _ res h
      refine ⟨fun x hx => hsub x (by simp [hx]), ?_⟩
      intro f hf
      rcases List.mem_cons.mp hf with rfl | hf
      · exact ⟨ds, hr, hsub f.id (by simp), fun x hx => hsub x (by simp [hx])⟩
      · exact hrest f hf

/-- With enough fuel, the recursive descendant collection of
`getAllDescendantFolderIds` never exhausts its fuel when the parent graph is
acyclic. -/
theorem getAllDesc_ne_none (folders : List Folder) (hac : Acyclic folders)
    (x0 : String) :
    ∀ (fuel : Nat) (vs : List String) (x : String),
      vs.Nodup → ¬ x ∈ vs →
      (∀ v ∈ vs, v ∈ folders.map Folder.id ∨ v = x0) →
      (x ∈ folders.map Folder.id ∨ x = x0) →
      (∀ v ∈ vs, Ancestor folders x v) →
      folders.length + 2 ≤ fuel + vs.length + 1 →
      ¬ getAllDescendantFolderIds folders fuel x = none
  | 0, vs, x, hnd, hxvs, hmem, hxmem, _, hlen => by
    intro _
    have hle := nodup_length_le_of_mem_or (List.nodup_cons.mpr ⟨hxvs, hnd⟩)
      (fun v hv => by
        rcases List.mem_cons.mp hv with rfl | hv
        · exact hxmem
        · exact hmem v hv)
    rw [List.length_cons, List.length_map] at hle
    omega
  | fuel + 1, vs, x, hnd, hxvs, hmem, hxmem, hanc, hlen => by
    rw [getAllDescendantFolderIds]
    apply descFold_ne_none
    intro f hf
    have hmf := List.mem_filter.mp hf
    have hfp : f.parentId = some x := by simpa using hmf.2
    have hstep : stepUp folders f.id x := ⟨f, hmf.1, rfl, hfp⟩
    have hfidnot : ¬ f.id ∈ x :: vs := by
      intro hin
      rcases List.mem_cons.mp hin with heq | hin
      · rw [heq] at hstep
        exact hac x (Relation.TransGen.single hstep)
      · exact hac f.id ((Relation.TransGen.single hstep).trans
          (hanc f.id hin))
    refine getAllDesc_ne_none folders hac x0 fuel (x :: vs) f.id
      (List.nodup_cons.mpr ⟨hxvs, hnd⟩) hfidnot ?_
      (Or.inl (List.mem_map_of_mem Folder.id hmf.1)) ?_ ?_
    · intro v hv
      rcases List.mem_cons.mp hv with rfl | hv
      · exact hxmem
      · exact hmem v hv
    · intro v hv
      rcases List.mem_cons.mp hv with rfl | hv
      · exact Relation.TransGen.single hstep
      · exact (Relation.TransGen.single hstep).trans (hanc v hv)
    · rw [List.length_cons]
      omega

/-- Completeness of the descendant collection: every strict descendant of
`x` appears in the returned id list. -/
theorem getAllDesc_complete (folders : List Folder) :
    ∀ (fuel : Nat) (x : String) (res : List String),
      getAllDescendantFolderIds folders fuel x = some res →
      ∀ y, Ancestor folders y x → y ∈ res
  | 0, x, res, h => by simp [getAllDescendantFolderIds] at h
  | fuel + 1, x, res, h => by
    intro y hyx
    rw [getAllDescendantFolderIds] at h
    obtain ⟨b, hrt, hstep⟩ := Relation.TransGen.tail'_iff.mp hyx
    obtain ⟨f, hfmem, hfid, hfp⟩ := hstep
    have hffil : f ∈ folders.filter (fun g => g.parentId = some x) :=
      List.mem_filter.mpr ⟨hfmem, by simp [hfp]⟩
    obtain ⟨_, hrest⟩ := descFold_sound folders fuel _ [] res h
    obtain ⟨ds, hds, hidres, hdssub⟩ := hrest f hffil
    rcases Relation.reflTransGen_iff_eq_or_transGen.mp hrt with rfl | htg
    · exact hfid ▸ hidres
    · exact hdssub y
        (getAllDesc_complete folders fuel f.id ds hds y (hfid ▸ htg))

/-- C3: for every acyclic store and folder id present in it, the delete
cascade succeeds, and afterwards no link's `folderId` equals the deleted id
or any id that was a strict descendant of it, and no folder's `parentId`
equals the deleted id. -/
theorem deleteFolder_cascade (data : BookmarkData) (fuel : Nat)
    (id0 : String)
    (hac : Acyclic data.folders)
    (hmem : id0 ∈ data.folders.map Folder.id)
    (hfuel : data.folders.length + 1 ≤ fuel) :
    ∃ d, deleteFolder data fuel id0 = some d ∧
      (∀ l ∈ d.links, ∀ y, (y = id0 ∨ Ancestor data.folders y id0) →
        ¬ l.folderId = some y) ∧
      (∀ f ∈ d.folders, ¬ f.parentId = some id0) := by
  have hterm := getAllDesc_ne_none data.folders hac id0 fuel [] id0
    (by simp) (by simp) (by simp) (Or.inl hmem) (by simp)
    (by simp; omega)
  cases hres : getAllDescendantFolderIds data.folders fuel id0 with
  | none => exact absurd hres hterm
  | some res =>
    refine ⟨{
        folders := data.folders.filter
          (fun f => ¬ f.id ∈ id0 :: res),
        links := data.links.filter (fun l =>
          match l.folderId with
          | none => true
          | some fid => ¬ fid ∈ id0 :: res) },
      by rw [deleteFolder, hres], ?_, ?_⟩
    · intro l hl y hy hfold
      have hmf := List.mem_filter.mp hl
      have hpred := hmf.2
      rw [hfold] at hpred
      have hnotin : ¬ y ∈ id0 :: res := by simpa using hpred
      rcases hy with rfl | hanc
      · exact hnotin (List.mem_cons_self _ _)
      · exact hnotin (List.mem_cons_of_mem _
          (getAllDesc_complete data.folders fuel id0 res hres y hanc))
    · intro f hf hparent
      have hmf := List.mem_filter.mp hf
      have hchild : f.id ∈ res :=
        getAllDesc_complete data.folders fuel id0 res hres f.id
          (Relation.TransGen.single ⟨f, hmf.1, rfl, hparent⟩)
      have hnotin : ¬ f.id ∈ id0 :: res := by simpa using hmf.2
      exact hnotin (List.mem_cons_of_mem _ hchild)

/-- Witness for the C3 theorem: deleting folder `B` (child of `A`, parent of
`C`) from a three-level tree with links in `A` and `C`. -/
theorem deleteFolder_cascade_witness :
    Acyclic [{ id := "A", name := "A", parentId := none, order := 0 },
             { id := "B", name := "B", parentId := some "A", order := 0 },
             { id := "C", name := "C", parentId := some "B", order := 0 }] ∧
    ("B" ∈ [{ id := "A", name := "A", parentId := none, order := 0 },
            { id := "B", name := "B", parentId := some "A", order := 0 },
            { id := "C", name := "C", parentId := some "B",
              order := 0 }].map Folder.id) ∧
    (∃ d, deleteFolder
        { folders := [{ id := "A", name := "A", parentId := none,
                        order := 0 },
                      { id := "B", name := "B", parentId := some "A",
                        order := 0 },
                      { id := "C", name := "C", parentId := some "B",
                        order := 0 }],
          links := [{ id := "LA", title := "a", url := "u",
                      folderId := some "A", order := 0 },
                    { id := "LC", title := "c", url := "u",
                      folderId := some "C", order := 0 }] } 4 "B" = some d ∧
      (∀ l ∈ d.links, ∀ y, (y = "B" ∨ Ancestor
          [{ id := "A", name := "A", parentId := none, order := 0 },
           { id := "B", name := "B", parentId := some "A", order := 0 },
           { id := "C", name := "C", parentId := some "B", order := 0 }]
          y "B") → ¬ l.folderId = some y) ∧
      (∀ f ∈ d.folders, ¬ f.parentId = some "B")) := by
  have hac : Acyclic
      [{ id := "A", name := "A", parentId := none, order := 0 },
       { id := "B", name := "B", parentId := some "A", order := 0 },
       { id := "C", name := "C", parentId := some "B", order := 0 }] := by
    apply acyclic_of_rank _
      (fun s => if s = "C" then 2 else if s = "B" then 1 else 0)
    intro x y hs
    obtain ⟨f, hf, hid, hp⟩ := hs
    fin_cases hf
    · simp at hp
    · subst hid
      have hy : y = "A" := by simpa using hp.symm
      subst hy
      decide
    · subst hid
      have hy : y = "B" := by simpa using hp.symm
      subst hy
      decide
  exact ⟨hac, by decide,
    deleteFolder_cascade
      { folders := [{ id := "A", name := "A", parentId := none, order := 0 },
                    { id := "B", name := "B", parentId := some "A",
                      order := 0 },
                    { id := "C", name := "C", parentId := some "B",
                      order := 0 }],
        links := [{ id := "LA", title := "a", url := "u",
                    folderId := some "A", order := 0 },
                  { id := "LC", title := "c", url := "u",
                    folderId := some "C", order := 0 }] } 4 "B" hac
      (by decide) (by decide)⟩

/-- One step of the `deleteSubfolders` fold (delete one subtree, then drop
that subtree root's links). -/
def dsStep (fuel : Nat) (acc : Option BookmarkData) (sf : Folder) :
    Option BookmarkData :=
  match acc with
  | none => none
  | some d =>
    match deleteSubfolders fuel d sf.id with
    | none => none
    | some d1 =>
      some { d1 with
        links := d1.links.filter (fun l => ¬ l.folderId = some sf.id) }

theorem deleteSubfolders_eq (fuel : Nat) (d : BookmarkData) (x : String) :
    deleteSubfolders (fuel + 1) d x =
      match (d.folders.filter (fun f => f.parentId = some x)).foldl
          (dsStep fuel) (some d) with
      | none => none
      | some dd =>
        some { dd with
          folders := dd.folders.filter (fun f => ¬ f.parentId = some x) } :=
  rfl

theorem dsFold_none (fuel : Nat) :
    ∀ cs : List Folder, cs.foldl (dsStep fuel) none = none
  | [] => rfl
  | _ :: cs => dsFold_none fuel cs

theorem dsFold_sublist (fuel : Nat)
    (hrec : ∀ (d : BookmarkData) (x : String) (d2 : BookmarkData),
      deleteSubfolders fuel d x = some d2 → d2.folders.Sublist d.folders) :
    ∀ (cs : List Folder) (a dd : BookmarkData),
      cs.foldl (dsStep fuel) (some a) = some dd →
      dd.folders.Sublist a.folders
  | [], a, dd, h => by
    simp at h
    subst h
    exact List.Sublist.refl _
  | c :: cs, a, dd, h => by
    cases hr : deleteSubfolders fuel a c.id with
    | none =>
      have hnone : (c :: cs).foldl (dsStep fuel) (some a) = none := by
        rw [List.foldl_cons]
        rw [show dsStep fuel (some a) c = none from by rw [dsStep, hr]]
        exact dsFold_none fuel cs
      rw [hnone] at h
      exact Option.noConfusion h
    | some d1 =>
      have hred : (c :: cs).foldl (dsStep fuel) (some a) =
          cs.foldl (dsStep fuel) (some { d1 with
            links := d1.links.filter
              (fun l => ¬ l.folderId = some c.id) }) := by
        rw [List.foldl_cons]
        rw [show dsStep fuel (some a) c = some { d1 with
          links := d1.links.filter (fun l => ¬ l.folderId = some c.id) }
          from by rw [dsStep, hr]]
      rw [hred] at h
      exact (dsFold_sublist fuel hrec cs _ dd h).trans (hrec a c.id d1 hr)

/-- `deleteSubfolders` only removes folders: the resulting folder list is a
sublist of the input's. -/
theorem deleteSubfolders_folders_sublist :
    ∀ (fuel : Nat) (d : BookmarkData) (x : String) (d2 : BookmarkData),
      deleteSubfolders fuel d x = some d2 → d2.folders.Sublist d.folders
  | 0, d, x, d2, h => by simp [deleteSubfolders] at h
  | fuel + 1, d, x, d2, h => by
    rw [deleteSubfolders_eq] at h
    cases hst : (d.folders.filter (fun f => f.parentId = some x)).foldl
        (dsStep fuel) (some d) with
    | none =>
      rw [hst] at h
      exact Option.noConfusion h
    | some dd =>
      rw [hst] at h
      have hdd : dd.folders.Sublist d.folders :=
        dsFold_sublist fuel
          (fun a y b => deleteSubfolders_folders_sublist fuel a y b) _ _ _ hst
      have hd2 : d2 = { dd with
          folders := dd.folders.filter (fun f => ¬ f.parentId = some x) } :=
        (Option.some_inj.mp h).symm
      rw [hd2]
      exact (List.filter_sublist _).trans hdd

theorem dsFold_ne_none (fuel : Nat) (folders0 : List Folder)
    (P : Folder → Prop)
    (hrec : ∀ (d : BookmarkData) (c : Folder), P c →
      d.folders.Sublist folders0 → ¬ deleteSubfolders fuel d c.id = none) :
    ∀ (cs : List Folder) (a : BookmarkData),
      (∀ c ∈ cs, P c) → a.folders.Sublist folders0 →
      ¬ cs.foldl (dsStep fuel) (some a) = none
  | [], a, _, _ => by simp
  | c :: cs, a, hall, hsub => by
    cases hr : deleteSubfolders fuel a c.id with
    | none =>
      exact absurd hr (hrec a c (hall c (List.mem_cons_self c cs)) hsub)
    | some d1 =>
      have hred : (c :: cs).foldl (dsStep fuel) (some a) =
          cs.foldl (dsStep fuel) (some { d1 with
            links := d1.links.filter
              (fun l => ¬ l.folderId = some c.id) }) := by
        rw [List.foldl_cons]
        rw [show dsStep fuel (some a) c = some { d1 with
          links := d1.links.filter (fun l => ¬ l.folderId = some c.id) }
          from by rw [dsStep, hr]]
      rw [hred]
      have hd1 : d1.folders.Sublist folders0 :=
        (deleteSubfolders_folders_sublist fuel a c.id d1 hr).trans hsub
      exact dsFold_ne_none fuel folders0 P hrec cs _
        (fun c2 hc2 => hall c2 (List.mem_cons_of_mem c hc2)) hd1

/-- With enough fuel, the recursive subtree deletion of
`DataManager.deleteSubfolders` never exhausts its fuel when the parent graph
is acyclic, even as the folder list shrinks along the way. -/
theorem deleteSubfolders_ne_none (folders0 : List Folder)
    (hac : Acyclic folders0) (x0 : String) :
    ∀ (fuel : Nat) (vs : List String) (x : String) (d : BookmarkData),
      d.folders.Sublist folders0 →
      vs.Nodup → ¬ x ∈ vs →
      (∀ v ∈ vs, v ∈ folders0.map Folder.id ∨ v = x0) →
      (x ∈ folders0.map Folder.id ∨ x = x0) →
      (∀ v ∈ vs, Ancestor folders0 x v) →
      folders0.length + 2 ≤ fuel + vs.length + 1 →
      ¬ deleteSubfolders fuel d x = none
  | 0, vs, x, d, _, hnd, hxvs, hmem, hxmem, _, hlen => by
    intro _
    have hle := nodup_length_le_of_mem_or (List.nodup_cons.mpr ⟨hxvs, hnd⟩)
      (fun v hv => by
        rcases List.mem_cons.mp hv with rfl | hv
        · exact hxmem
        · exact hmem v hv)
    rw [List.length_cons, List.length_map] at hle
    omega
  | fuel + 1, vs, x, d, hsub, hnd, hxvs, hmem, hxmem, hanc, hlen => by
    rw [deleteSubfolders_eq]
    cases hst : (d.folders.filter (fun f => f.parentId = some x)).foldl
        (dsStep fuel) (some d) with
    | none =>
      exfalso
      refine dsFold_ne_none fuel folders0
        (fun c => c ∈ folders0 ∧ c.parentId = some x) ?_ _ d ?_ hsub hst
      · intro dcur c hc hsubcur
        have hstep : stepUp folders0 c.id x := ⟨c, hc.1, rfl, hc.2⟩
        have hcidnot : ¬ c.id ∈ x :: vs := by
          intro hin
          rcases List.mem_cons.mp hin with heq | hin
          · rw [heq] at hstep
            exact hac x (Relation.TransGen.single hstep)
          · exact hac c.id ((Relation.TransGen.single hstep).trans
              (hanc c.id hin))
        refine deleteSubfolders_ne_none folders0 hac x0 fuel (x :: vs) c.id
          dcur hsubcur (List.nodup_cons.mpr ⟨hxvs, hnd⟩) hcidnot ?_
          (Or.inl (List.mem_map_of_mem Folder.id hc.1)) ?_ ?_
        · intro v hv
          rcases List.mem_cons.mp hv with rfl | hv
          · exact hxmem
          · exact hmem v hv
        · intro v hv
          rcases List.mem_cons.mp hv with rfl | hv
          · exact Relation.TransGen.single hstep
          · exact (Relation.TransGen.single hstep).trans (hanc v hv)
        · rw [List.length_cons]
          omega
      · intro c hc
        have hmf := List.mem_filter.mp hc
        exact ⟨hsub.subset hmf.1, by simpa using hmf.2⟩
    | some dd => simp

/-- C10: under acyclicity of the parent graph, the three unguarded
recursions of the delete cascade and the cycle check terminate: with fuel at
least `|folders| + 1` neither the ancestor walk `isDescendant`, nor the
descendant collection `getAllDescendantFolderIds`, nor the recursive
`DataManager.deleteSubfolders` ever runs out of fuel, for any argument id.
Acyclicity is exactly what bounds the recursion depth, since none of these
functions carries a visited set. -/
theorem coreRecursions_terminate (folders : List Folder) (links : List Link)
    (fuel : Nat) (hac : Acyclic folders)
    (hfuel : folders.length + 1 ≤ fuel) :
    (∀ c p, ¬ isDescendant folders fuel c p = none) ∧
    (∀ x, ¬ getAllDescendantFolderIds folders fuel x = none) ∧
    (∀ x, ¬ deleteSubfolders fuel { folders := folders, links := links }
      x = none) :=
  ⟨fun c p => isDescendant_ne_none folders hac p fuel [] c (by simp)
      (by simp) (by simp) (by simpa using hfuel),
   fun x => getAllDesc_ne_none folders hac x fuel [] x (by simp) (by simp)
      (by simp) (Or.inr rfl) (by simp) (by simp; omega),
   fun x => deleteSubfolders_ne_none folders hac x fuel [] x
      { folders := folders, links := links } (List.Sublist.refl _)
      (by simp) (by simp) (by simp) (Or.inr rfl) (by simp)
      (by simp; omega)⟩

/-- Witness for the C10 theorem on a concrete three-folder chain. -/
theorem coreRecursions_terminate_witness :
    (Acyclic [{ id := "A", name := "A", parentId := none, order := 0 },
              { id := "B", name := "B", parentId := some "A", order := 0 },
              { id := "C", name := "C", parentId := some "B",
                order := 0 }] ∧
      ([{ id := "A", name := "A", parentId := none, order := 0 },
        { id := "B", name := "B", parentId := some "A", order := 0 },
        { id := "C", name := "C", parentId := some "B",
          order := 0 }] : List Folder).length + 1 ≤ 4) ∧
    ((∀ c p, ¬ isDescendant
        [{ id := "A", name := "A", parentId := none, order := 0 },
         { id := "B", name := "B", parentId := some "A", order := 0 },
         { id := "C", name := "C", parentId := some "B", order := 0 }]
        4 c p = none) ∧
      (∀ x, ¬ getAllDescendantFolderIds
        [{ id := "A", name := "A", parentId := none, order := 0 },
         { id := "B", name := "B", parentId := some "A", order := 0 },
         { id := "C", name := "C", parentId := some "B", order := 0 }]
        4 x = none) ∧
      (∀ x, ¬ deleteSubfolders 4
        { folders :=
            [{ id := "A", name := "A", parentId := none, order := 0 },
             { id := "B", name := "B", parentId := some "A", order := 0 },
             { id := "C", name := "C", parentId := some "B", order := 0 }],
          links := [] } x = none)) := by
  have hac : Acyclic
      [{ id := "A", name := "A", parentId := none, order := 0 },
       { id := "B", name := "B", parentId := some "A", order := 0 },
       { id := "C", name := "C", parentId := some "B", order := 0 }] := by
    apply acyclic_of_rank _
      (fun s => if s = "C" then 2 else if s = "B" then 1 else 0)
    intro x y hs
    obtain ⟨f, hf, hid, hp⟩ := hs
    fin_cases hf
    · simp at hp
    · subst hid
      have hy : y = "A" := by simpa using hp.symm
      subst hy
      decide
    · subst hid
      have hy : y = "B" := by simpa using hp.symm
      subst hy
      decide
  exact ⟨⟨hac, by decide⟩,
    coreRecursions_terminate
      [{ id := "A", name := "A", parentId := none, order := 0 },
       { id := "B", name := "B", parentId := some "A", order := 0 },
       { id := "C", name := "C", parentId := some "B", order := 0 }]
      [] 4 hac (by decide)⟩

end BM
